import Mathlib

/-!
Shallow embedding of the josh-backend image-catalog core: the data model
(Item, Catalog), the category classifier of fixImageCategories, the upload
and delete mutations of the upload router, the Cloudinary reconciliation
routines (syncCloudinaryToDatabase and the images router's
initializeImagesDatabase), and the read routes, together with proofs of
the claimed properties.

Modelling conventions, used throughout:
- JavaScript strings are Lean String, JS integers (Date.now(), widths) are Nat.
- A JS value that may be undefined/null is an Option, except where the code
  only distinguishes truthiness of a string, where the empty string stands
  for the absent value (noted at each field).
- The remote Cloudinary service is an oracle passed as a function argument:
  upload outcomes are Except String UploadResult (error = rejected promise),
  folder listings are Except Unit (List Resource) (error = thrown API call),
  destroy outcomes are a Bool-valued oracle on public ids.
- The clock (Date.now(), toISOString) is a Clock argument; index i refers to
  the i-th call made while processing a request.
- The persisted JSON file is an Option Catalog (none = file absent); each
  route returns its response together with the new persisted state.
-/

/-- Item is one media asset's metadata record, exactly the object literal
built by the upload route / sync scripts: id, url, publicId, category,
caption, uploadedAt, width, height, format, resourceType. -/
structure Item where
  id : String
  url : String
  publicId : String
  category : String
  caption : String
  uploadedAt : String
  width : Nat
  height : Nat
  format : String
  resourceType : String
  deriving Repr, DecidableEq

/-- Catalog is the persisted JSON document: one ordered list of Items per
fixed category label (josh, family, friends). -/
structure Catalog where
  josh : List Item
  family : List Item
  friends : List Item
  deriving Repr, DecidableEq

/-- An empty catalog, the default structure `{ josh: [], family: [], friends: [] }`. -/
def emptyCatalog : Catalog := { josh := [], family := [], friends := [] }

/-- Fixed label set `['josh', 'family', 'friends']` used by the validation
check and the per-category loops. -/
def validCategories : List String := ["josh", "family", "friends"]

/-- All items of the catalog, in bucket order josh, family, friends. -/
def Catalog.allItems (db : Catalog) : List Item :=
  db.josh ++ db.family ++ db.friends

/-- Total item count across all categories, as computed by
`imagesDb.josh.length + imagesDb.family.length + imagesDb.friends.length`. -/
def totalImages (db : Catalog) : Nat :=
  db.josh.length + db.family.length + db.friends.length

/-- Lookup of `images[category]` on the fixed-key document: some bucket for
the three known labels, none (undefined) otherwise. -/
def bucketOf? (db : Catalog) (c : String) : Option (List Item) :=
  if c = "josh" then some db.josh
  else if c = "family" then some db.family
  else if c = "friends" then some db.friends
  else none

/-- Update `images[category].push(...)` bulk form: append items to the named
bucket (no-op on an unknown label, which the routes rule out by validation). -/
def pushAll (db : Catalog) (c : String) (items : List Item) : Catalog :=
  if c = "josh" then { db with josh := db.josh ++ items }
  else if c = "family" then { db with family := db.family ++ items }
  else if c = "friends" then { db with friends := db.friends ++ items }
  else db

/-- Check that the pattern list is an initial segment of the other list
(character-level model of string startsWith). -/
def listStartsWith : List Char → List Char → Bool
  | [], _ => true
  | _ :: _, [] => false
  | p :: ps, c :: cs => p = c && listStartsWith ps cs

/-- Check that the pattern occurs contiguously somewhere in the list
(character-level model of JavaScript String.prototype.includes). -/
def occursIn (pat : List Char) : List Char → Bool
  | [] => pat.isEmpty
  | c :: cs => listStartsWith pat (c :: cs) || occursIn pat cs

/-- Model of `s.includes(pat)` on Lean strings. -/
def strIncludes (s pat : String) : Bool := occursIn pat.data s.data

/-- Category Classifier, embedded from the per-image category computation of
fixImageCategories (the `imageCategory` logic): `declared` is `image.category`
(none = property absent), `hint` is `image.url || image.publicId || ''`, and
`fb` is the array category the loop is visiting. The declared value is kept
when it is truthy and a member of the fixed label set; otherwise the URL hint
is probed for the folder substrings in the code's order josh, friends,
family; otherwise the bucket label is used. -/
def classify (declared : Option String) (hint : String) (fb : String) : String :=
  let c := declared.getD ""
  if c = "" ∨ c ∉ validCategories then
    if strIncludes hint "/josh-farewell/josh/" || strIncludes hint "/josh/" then "josh"
    else if strIncludes hint "/josh-farewell/friends/" || strIncludes hint "/friends/" then "friends"
    else if strIncludes hint "/josh-farewell/family/" || strIncludes hint "/family/" then "family"
    else fb
  else c

/-- Priority order in which the classifier probes the path hint. -/
def hintPriority : List String := ["josh", "friends", "family"]

/-- Modelled from the spec (for the refinement proof only): the Category
Classifier contract of section 4.1 stated in the spec's words — return the
declared category when it is a member of the fixed label set, else the first
fixed label whose canonical folder form "/label/" occurs as a substring of the
path hint, in a fixed priority order, else the fallback category. -/
def classifySpec (declared : Option String) (hint : String) (fb : String) : String :=
  match declared with
  | some c =>
      if c ∈ validCategories then c
      else match hintPriority.find? (fun l => strIncludes hint ("/" ++ l ++ "/")) with
        | some l => l
        | none => fb
  | none =>
      match hintPriority.find? (fun l => strIncludes hint ("/" ++ l ++ "/")) with
      | some l => l
      | none => fb

/-- Clock bundles the request's time sources: `now i` is the value of
Date.now() at the i-th call, `iso i` the string of new Date().toISOString()
at the i-th call, and `isoOf s` the value of new Date(s).toISOString(). -/
structure Clock where
  now : Nat → Nat
  iso : Nat → String
  isoOf : String → String

/-- UploadResult is the Cloudinary upload response fields the route reads. -/
structure UploadResult where
  secureUrl : String
  publicId : String
  width : Nat
  height : Nat
  format : String
  resourceType : String
  deriving Repr, DecidableEq

/-- CaptionSpec is the parsed `captions` body field: omitted (falsy),
a JSON array of caption strings, or a non-JSON string treated by the
catch branch as `[captions]`. -/
inductive CaptionSpec where
  | omitted
  | jsonList (cs : List String)
  | single (c : String)
  deriving Repr, DecidableEq

/-- Caption array produced by the parsing block of the upload route. -/
def CaptionSpec.toArray : CaptionSpec → List String
  | .omitted => []
  | .jsonList cs => cs
  | .single c => [c]

/-- Map with the element index, the semantics of JavaScript
`array.map((x, index) => ...)` started at index k. -/
def mapIdxFrom (f : Nat → α → β) : Nat → List α → List β
  | _, [] => []
  | k, a :: as => f k a :: mapIdxFrom f (k + 1) as

/-- Promise.all over settled outcomes: the list of fulfilled values when
every promise fulfills, otherwise the rejection of a failed promise. -/
def settleAll : List (Except String α) → Except String (List α)
  | [] => .ok []
  | .error e :: _ => .error e
  | .ok a :: rest => (settleAll rest).map (fun l => a :: l)

/-- Item metadata built for the index-th uploaded file, exactly the object
literal of the upload route: `id: Date.now().toString() + index`,
`caption: captionArray[index] || ''`, category stamped with the request's
category, media attributes copied from the Cloudinary result. -/
def mkUploadedItem (ck : Clock) (category : String) (caps : List String)
    (i : Nat) (r : UploadResult) : Item :=
  { id := Nat.repr (ck.now i) ++ Nat.repr i
    url := r.secureUrl
    publicId := r.publicId
    category := category
    caption := (caps.get? i).getD ""
    uploadedAt := ck.iso i
    width := r.width
    height := r.height
    format := r.format
    resourceType := r.resourceType }

/-- UploadResponse is the shape of the POST /api/upload response. -/
inductive UploadResponse where
  | created (items : List Item)
  | badRequest (msg : String)
  | serverError (msg : String)
  deriving Repr, DecidableEq

/-- POST /api/upload embedded from the upload router: validate the file list
and category, read the persisted catalog (absent file becomes the default
structure), run every Cloudinary upload under Promise.all, and only when all
succeed append the new items to the category bucket and persist; any
rejection reaches the catch block, which answers 500 and writes nothing.
Returns the response together with the new persisted state, where `files`
carries each file's remote upload outcome. -/
def postUpload (persisted : Option Catalog) (category : String)
    (files : List (Except String UploadResult)) (caps : CaptionSpec)
    (ck : Clock) : UploadResponse × Option Catalog :=
  if files.isEmpty then (.badRequest "No files uploaded", persisted)
  else if category ∉ validCategories then
    (.badRequest "Invalid category. Must be: josh, family, or friends", persisted)
  else
    let db := persisted.getD emptyCatalog
    let capArr := caps.toArray
    match settleAll (mapIdxFrom (fun i f => f.map (mkUploadedItem ck category capArr i)) 0 files) with
    | .error e => (.serverError e, persisted)
    | .ok items => (.created items, some (pushAll db category items))

/-- Items carried by a created response (empty for error responses). -/
def UploadResponse.items : UploadResponse → List Item
  | .created l => l
  | _ => []

/-- Resource is the Cloudinary API listing entry as read by the sync code:
public_id, secure_url, created_at (empty string models a falsy/absent
value), width, height, format, resource_type (empty string falsy). -/
structure Resource where
  publicId : String
  secureUrl : String
  createdAt : String
  width : Nat
  height : Nat
  format : String
  resourceType : String
  deriving Repr, DecidableEq

/-- Replace every slash by an underscore, the `replace(/\x2f/g, '_')` call. -/
def replaceSlashes (s : String) : String :=
  String.mk (s.data.map (fun c => if c = '/' then '_' else c))

/-- Conversion cloudinaryResourceToImage / the mapping inside
fetchFromCloudinary: fabricate the id from the public id with slashes
replaced plus the created_at timestamp (Date.now() when absent), empty
caption, category stamped with the bucket label being queried, media
attributes copied (resource_type defaulting to image). -/
def resourceToImage (ck : Clock) (category : String) (i : Nat) (r : Resource) : Item :=
  { id := replaceSlashes r.publicId ++ "_" ++
      (if r.createdAt = "" then Nat.repr (ck.now i) else r.createdAt)
    url := r.secureUrl
    publicId := r.publicId
    category := category
    caption := ""
    uploadedAt := if r.createdAt = "" then ck.iso i else ck.isoOf r.createdAt
    width := r.width
    height := r.height
    format := r.format
    resourceType := if r.resourceType = "" then "image" else r.resourceType }

/-- Result of fetchCloudinaryResources: the listed resources on success and
the empty list when the API call throws (the catch branch returns []). -/
def fetchOutcome (r : Except Unit (List Resource)) : List Resource :=
  match r with
  | .ok l => l
  | .error _ => []

/-- Route-side fetchFromCloudinary: list the folder (failure caught as [])
and map every resource to an Item stamped with the queried category. -/
def fetchFromCloudinary (ck : Clock) (category : String)
    (r : Except Unit (List Resource)) : List Item :=
  mapIdxFrom (resourceToImage ck category) 0 (fetchOutcome r)

/-- Per-category body of syncCloudinaryToDatabase: when Cloudinary returned
resources they replace the bucket unconditionally; when it returned nothing
(failure or empty folder) a non-empty previously persisted bucket is kept
with each item's category re-stamped to the bucket label; otherwise the
bucket becomes empty. -/
def syncCategory (existing : Option Catalog) (ck : Clock) (category : String)
    (r : Except Unit (List Resource)) : List Item :=
  let resources := fetchOutcome r
  if resources.length > 0 then
    mapIdxFrom (resourceToImage ck category) 0 resources
  else
    match existing with
    | some ex =>
        let prev := (bucketOf? ex category).getD []
        if prev.length > 0 then prev.map (fun img => { img with category := category })
        else []
    | none => []

/-- Standalone syncCloudinaryToDatabase script: ping Cloudinary first and
return without writing anything when unreachable (none); otherwise rebuild
every bucket with syncCategory and persist the result (some catalog).
`R` is the per-folder listing oracle and `existing` the previously persisted
catalog read from disk. -/
def syncCloudinaryToDatabase (existing : Option Catalog) (ping : Bool)
    (ck : Clock) (R : String → Except Unit (List Resource)) : Option Catalog :=
  if ping then
    some { josh := syncCategory existing ck "josh" (R "josh")
           family := syncCategory existing ck "family" (R "family")
           friends := syncCategory existing ck "friends" (R "friends") }
  else none

/-- Reconciliation entry point of the images router (initializeImagesDatabase):
when the persisted file is absent, fetch every category from Cloudinary,
persist and return the result; when it exists but its total item count is
zero, refill every bucket from Cloudinary, persist and return; otherwise
return the persisted catalog untouched. The Bool records whether the remote
fetch ran. -/
def initImagesDatabase (persisted : Option Catalog) (ck : Clock)
    (R : String → Except Unit (List Resource)) : Catalog × Option Catalog × Bool :=
  match persisted with
  | none =>
      let db : Catalog :=
        { josh := fetchFromCloudinary ck "josh" (R "josh")
          family := fetchFromCloudinary ck "family" (R "family")
          friends := fetchFromCloudinary ck "friends" (R "friends") }
      (db, some db, true)
  | some db =>
      if totalImages db = 0 then
        let db2 : Catalog :=
          { josh := fetchFromCloudinary ck "josh" (R "josh")
            family := fetchFromCloudinary ck "family" (R "family")
            friends := fetchFromCloudinary ck "friends" (R "friends") }
        (db2, some db2, true)
      else (db, some db, false)

/-- Category re-stamping view of GET /api/images (latest revision): each
bucket's items get their category property overwritten with the array label
they sit in, items staying in their original arrays. -/
def restampView (db : Catalog) : Catalog :=
  { josh := db.josh.map (fun i => { i with category := "josh" })
    family := db.family.map (fun i => { i with category := "family" })
    friends := db.friends.map (fun i => { i with category := "friends" }) }

/-- DeleteResponse is the shape of the DELETE /api/upload/:id response. -/
inductive DeleteResponse where
  | ok
  | notFound
  | serverError
  deriving Repr, DecidableEq

/-- Search one bucket for the first item with the given id, returning its
publicId and the bucket with that item spliced out (the findIndex / splice
pair of the delete route). -/
def removeById (id : String) : List Item → Option (String × List Item)
  | [] => none
  | x :: xs =>
      if x.id = id then some (x.publicId, xs)
      else (removeById id xs).map (fun pr => (pr.1, x :: pr.2))

/-- PublicId of the first item matching the id across the buckets in the
loop order josh, family, friends (none when the id is absent everywhere). -/
def findPublicId (db : Catalog) (id : String) : Option String :=
  match removeById id db.josh with
  | some pr => some pr.1
  | none =>
      match removeById id db.family with
      | some pr => some pr.1
      | none =>
          match removeById id db.friends with
          | some pr => some pr.1
          | none => none

/-- DELETE /api/upload/:id embedded from the upload router: read the
persisted catalog (a missing file throws into the catch block → 500,
nothing written); search the buckets in order josh, family, friends and
splice out the first match; answer 404 without any remote call when nothing
matched; otherwise call Cloudinary destroy when the publicId is truthy —
a thrown destroy reaches the catch block (500) before the file is written —
and finally persist the updated catalog and answer success. `destroyOk`
tells whether the remote destroy call for a publicId succeeds. Returns the
response, the new persisted state, and the list of destroy calls issued. -/
def deleteById (persisted : Option Catalog) (id : String)
    (destroyOk : String → Bool) : DeleteResponse × Option Catalog × List String :=
  match persisted with
  | none => (.serverError, none, [])
  | some db =>
      match removeById id db.josh with
      | some pr =>
          deleteFinish persisted { db with josh := pr.2 } pr.1 destroyOk
      | none =>
          match removeById id db.family with
          | some pr =>
              deleteFinish persisted { db with family := pr.2 } pr.1 destroyOk
          | none =>
              match removeById id db.friends with
              | some pr =>
                  deleteFinish persisted { db with friends := pr.2 } pr.1 destroyOk
              | none => (.notFound, persisted, [])
where
  /-- Tail of the delete route after a successful splice: conditional remote
  destroy, then persist on success. -/
  deleteFinish (persisted : Option Catalog) (db2 : Catalog) (pid : String)
      (destroyOk : String → Bool) : DeleteResponse × Option Catalog × List String :=
    if pid = "" then (.ok, some db2, [])
    else if destroyOk pid then (.ok, some db2, [pid])
    else (.serverError, persisted, [pid])

/-- CategoryResponse is the response shape of the earliest revision of
GET /api/images/:category, which still distinguished 404 and 500. -/
inductive CategoryResponse where
  | ok (items : List Item)
  | notFound
  | serverError
  deriving Repr, DecidableEq

/-- GET /api/images/:category, earliest revision of the images router:
a missing persisted file throws (500); a known bucket (even empty, arrays
being truthy) is returned; an unknown category answers 404 Category not
found. -/
def getCategoryOld (persisted : Option Catalog) (category : String) : CategoryResponse :=
  match persisted with
  | none => .serverError
  | some db =>
      match bucketOf? db category with
      | some l => .ok l
      | none => .notFound

/-- GET /api/images/:category, standalone later revision (no Cloudinary):
missing file and unknown category both answer an empty list, errors degrade
to an empty list. -/
def getCategoryPlain (persisted : Option Catalog) (category : String) : List Item :=
  match persisted with
  | none => []
  | some db => (bucketOf? db category).getD []

/-- GET /api/images/:category, latest revision: run initializeImagesDatabase
(fetching from Cloudinary when the store is absent or empty) and answer the
bucket, or an empty list for an unknown category. -/
def getCategoryLatest (persisted : Option Catalog) (ck : Clock)
    (R : String → Except Unit (List Resource)) (category : String) : List Item :=
  (bucketOf? (initImagesDatabase persisted ck R).1 category).getD []

/-- Central consistency invariant: every item's category field equals the
bucket label it is stored under. -/
def catalogInv (db : Catalog) : Bool :=
  db.josh.all (fun x => x.category == "josh") &&
  db.family.all (fun x => x.category == "family") &&
  db.friends.all (fun x => x.category == "friends")

/-- Uniqueness invariant: the ids of all items of the catalog are pairwise
distinct. -/
def idsUnique (db : Catalog) : Prop :=
  (db.allItems.map (fun x => x.id)).Nodup

/-- Persisted-store states reachable through the system's operations,
starting from the absent file: batch uploads, deletes, reads running
initializeImagesDatabase, and runs of the syncCloudinaryToDatabase script
(which leaves the store untouched when the ping fails). -/
inductive ReachableStore : Option Catalog → Prop where
  | start : ReachableStore none
  | upload (s : Option Catalog) (category : String)
      (files : List (Except String UploadResult)) (caps : CaptionSpec) (ck : Clock) :
      ReachableStore s → ReachableStore (postUpload s category files caps ck).2
  | del (s : Option Catalog) (id : String) (destroyOk : String → Bool) :
      ReachableStore s → ReachableStore (deleteById s id destroyOk).2.1
  | readInit (s : Option Catalog) (ck : Clock)
      (R : String → Except Unit (List Resource)) :
      ReachableStore s → ReachableStore (initImagesDatabase s ck R).2.1
  | sync (s : Option Catalog) (ping : Bool) (ck : Clock)
      (R : String → Except Unit (List Resource)) :
      ReachableStore s →
      ReachableStore ((syncCloudinaryToDatabase s ping ck R).map some |>.getD s)

/-- Decimal digit accumulator step: push one decimal digit character. -/
def digitStep (a : Nat) (c : Char) : Nat := a * 10 + (c.toNat - 48)

/-- Value of a list of decimal digit characters read left to right. -/
def digitsVal (l : List Char) : Nat := l.foldl digitStep 0

/-- Reference accumulator: push the whole decimal expansion of n onto a. -/
def pushNum (a n : Nat) : Nat :=
  if n < 10 then a * 10 + n
  else pushNum a (n / 10) * 10 + n % 10
termination_by n
decreasing_by exact Nat.div_lt_self (by omega) (by decide)

theorem digitChar_toNat_sub (d : Nat) (h : d < 10) : (Nat.digitChar d).toNat - 48 = d := by
  revert h
  revert d
  decide

theorem toDigitsCore_succ (b fuel n : Nat) (ds : List Char) :
    Nat.toDigitsCore b (fuel + 1) n ds =
      if n / b = 0 then Nat.digitChar (n % b) :: ds
      else Nat.toDigitsCore b fuel (n / b) (Nat.digitChar (n % b) :: ds) := rfl

theorem foldl_toDigitsCore (f : Nat) : ∀ (n a : Nat) (ds : List Char),
    n < 10 ^ (f + 1) →
    List.foldl digitStep a (Nat.toDigitsCore 10 (f + 1) n ds) =
      List.foldl digitStep (pushNum a n) ds := by
  induction f with
  | zero =>
      intro n a ds h
      have hn : n < 10 := by simpa using h
      have hdiv : n / 10 = 0 := (Nat.div_eq_zero_iff (by decide)).2 hn
      rw [toDigitsCore_succ, if_pos hdiv, List.foldl_cons]
      have hmod : n % 10 = n := Nat.mod_eq_of_lt hn
      rw [pushNum]
      simp only [hn, if_pos, digitStep, hmod, digitChar_toNat_sub n hn]
  | succ f ih =>
      intro n a ds h
      by_cases hdiv : n / 10 = 0
      · have hn : n < 10 := (Nat.div_eq_zero_iff (by decide)).1 hdiv
        have hmod : n % 10 = n := Nat.mod_eq_of_lt hn
        rw [toDigitsCore_succ, if_pos hdiv, List.foldl_cons]
        rw [pushNum]
        simp only [hn, if_pos, digitStep, hmod, digitChar_toNat_sub n hn]
      · have hge : 10 ≤ n := by
          by_contra hc
          push_neg at hc
          exact hdiv ((Nat.div_eq_zero_iff (by decide)).2 hc)
        have hlt : n / 10 < 10 ^ (f + 1) := by
          rw [Nat.div_lt_iff_lt_mul (by decide)]
          calc n < 10 ^ (f + 1 + 1) := h
          _ = 10 ^ (f + 1) * 10 := by ring
        rw [toDigitsCore_succ, if_neg hdiv]
        rw [ih (n / 10) a (Nat.digitChar (n % 10) :: ds) hlt]
        rw [List.foldl_cons]
        have hstep : digitStep (pushNum a (n / 10)) (Nat.digitChar (n % 10)) = pushNum a n := by
          rw [digitStep, digitChar_toNat_sub (n % 10) (Nat.mod_lt n (by omega))]
          conv_rhs => rw [pushNum]
          simp [Nat.not_lt.2 hge]
        rw [hstep]

theorem pushNum_zero (n : Nat) : pushNum 0 n = n := by
  induction n using Nat.strong_induction_on with
  | _ n ih =>
      rw [pushNum]
      by_cases h : n < 10
      · simp [h]
      · have hge : 10 ≤ n := Nat.not_lt.1 h
        simp only [h, if_neg, ite_false]
        rw [ih (n / 10) (Nat.div_lt_self (by omega) (by decide))]
        omega

theorem digitsVal_repr (n : Nat) : digitsVal (Nat.repr n).data = n := by
  have hfuel : n < 10 ^ (n + 1) :=
    Nat.lt_of_lt_of_le (Nat.lt_pow_self (by decide) n)
      (Nat.pow_le_pow_right (by decide) (Nat.le_succ n))
  have h := foldl_toDigitsCore n n 0 [] hfuel
  simpa [digitsVal, Nat.repr, Nat.toDigits, pushNum_zero] using h

theorem repr_injective {m n : Nat} (h : Nat.repr m = Nat.repr n) : m = n := by
  have h2 := congrArg (fun s => digitsVal s.data) h
  simpa [digitsVal_repr] using h2

theorem listStartsWith_iff (p : List Char) : ∀ s : List Char,
    listStartsWith p s = true ↔ ∃ t, s = p ++ t := by
  induction p with
  | nil =>
      intro s
      simp [listStartsWith]
  | cons a as ih =>
      intro s
      cases s with
      | nil =>
          simp [listStartsWith]
      | cons b bs =>
          simp only [listStartsWith, Bool.and_eq_true, decide_eq_true_eq, ih,
            List.cons_append, List.cons.injEq]
          constructor
          · rintro ⟨hab, t, ht⟩
            exact ⟨t, hab.symm, ht⟩
          · rintro ⟨t, hab, ht⟩
            exact ⟨hab.symm, t, ht⟩

theorem occursIn_iff (p : List Char) : ∀ s : List Char,
    occursIn p s = true ↔ ∃ u v, s = u ++ p ++ v := by
  intro s
  induction s with
  | nil =>
      simp only [occursIn, List.isEmpty_iff]
      constructor
      · rintro rfl
        exact ⟨[], [], rfl⟩
      · rintro ⟨u, v, huv⟩
        rcases List.append_eq_nil.1 (List.append_eq_nil.1 huv.symm).1 with ⟨-, h2⟩
        exact h2
  | cons c cs ih =>
      simp only [occursIn, Bool.or_eq_true, listStartsWith_iff, ih]
      constructor
      · rintro (⟨t, ht⟩ | ⟨u, v, huv⟩)
        · exact ⟨[], t, by simp [ht]⟩
        · exact ⟨c :: u, v, by simp [huv]⟩
      · rintro ⟨u, v, huv⟩
        cases u with
        | nil =>
            left
            exact ⟨v, by simpa using huv⟩
        | cons x xs =>
            right
            simp only [List.cons_append, List.cons.injEq, List.append_assoc] at huv
            exact ⟨xs, v, by simp [huv.2]⟩

theorem occursIn_mid (u p v s : List Char) (h : occursIn (u ++ p ++ v) s = true) :
    occursIn p s = true := by
  rcases (occursIn_iff _ s).1 h with ⟨x, y, hxy⟩
  refine (occursIn_iff p s).2 ⟨x ++ u, v ++ y, ?_⟩
  simp only [hxy, List.append_assoc]

theorem strIncludes_of_concat (s pre mid post : String)
    (h : strIncludes s (pre ++ mid ++ post) = true) : strIncludes s mid = true := by
  apply occursIn_mid pre.data mid.data post.data
  have hdata : (pre ++ mid ++ post).data = pre.data ++ mid.data ++ post.data := by
    rw [String.data_append, String.data_append]
  rw [strIncludes, hdata] at h
  exact h

theorem mem_mapIdxFrom {f : Nat → α → β} {b : β} :
    ∀ {k : Nat} {l : List α}, b ∈ mapIdxFrom f k l → ∃ i a, a ∈ l ∧ b = f i a := by
  intro k l
  induction l generalizing k with
  | nil => intro h; cases h
  | cons x xs ih =>
      intro h
      rcases List.mem_cons.1 h with h1 | h2
      · exact ⟨k, x, List.mem_cons_self x xs, h1⟩
      · rcases ih h2 with ⟨i, a, ha, hb⟩
        exact ⟨i, a, List.mem_cons_of_mem x ha, hb⟩

theorem length_mapIdxFrom (f : Nat → α → β) :
    ∀ (k : Nat) (l : List α), (mapIdxFrom f k l).length = l.length := by
  intro k l
  induction l generalizing k with
  | nil => rfl
  | cons x xs ih => simp [mapIdxFrom, ih]

theorem settleAll_ok_length {l : List (Except String α)} {items : List α}
    (h : settleAll l = .ok items) : items.length = l.length := by
  induction l generalizing items with
  | nil =>
      cases h
      rfl
  | cons x xs ih =>
      cases x with
      | error e => simp [settleAll] at h
      | ok a =>
          simp only [settleAll] at h
          cases hx : settleAll xs with
          | error e => rw [hx] at h; simp [Except.map] at h
          | ok its =>
              rw [hx] at h
              simp only [Except.map, Except.ok.injEq] at h
              subst h
              simp [ih hx]

theorem settleAll_ok_mem {l : List (Except String α)} {items : List α} {x : α}
    (h : settleAll l = .ok items) (hx : x ∈ items) : .ok x ∈ l := by
  induction l generalizing items with
  | nil =>
      cases h
      cases hx
  | cons y ys ih =>
      cases y with
      | error e => simp [settleAll] at h
      | ok a =>
          simp only [settleAll] at h
          cases hy : settleAll ys with
          | error e => rw [hy] at h; simp [Except.map] at h
          | ok its =>
              rw [hy] at h
              simp only [Except.map, Except.ok.injEq] at h
              subst h
              rcases List.mem_cons.1 hx with h1 | h2
              · subst h1; exact List.mem_cons_self _ _
              · exact List.mem_cons_of_mem _ (ih hy h2)

theorem settleAll_error_of_mem {l : List (Except String α)} {e : String}
    (h : .error e ∈ l) : ∃ e2, settleAll l = .error e2 := by
  induction l with
  | nil => cases h
  | cons y ys ih =>
      cases y with
      | error e3 => exact ⟨e3, rfl⟩
      | ok a =>
          rcases List.mem_cons.1 h with h1 | h2
          · cases h1
          · rcases ih h2 with ⟨e2, he2⟩
            refine ⟨e2, ?_⟩
            simp [settleAll, he2, Except.map]

theorem settleAll_ok_of_all {l : List (Except String α)}
    (h : ∀ f ∈ l, ∃ a, f = .ok a) : ∃ items, settleAll l = .ok items := by
  induction l with
  | nil => exact ⟨[], rfl⟩
  | cons y ys ih =>
      rcases h y (List.mem_cons_self y ys) with ⟨a, ha⟩
      subst ha
      rcases ih (fun f hf => h f (List.mem_cons_of_mem _ hf)) with ⟨its, hits⟩
      exact ⟨a :: its, by simp [settleAll, hits, Except.map]⟩

/-- Number of items of a bucket carrying the given id. -/
def idCount (id : String) (l : List Item) : Nat :=
  l.countP (fun x => x.id == id)

theorem removeById_none_iff (id : String) : ∀ l : List Item,
    removeById id l = none ↔ ∀ x ∈ l, x.id ≠ id := by
  intro l
  induction l with
  | nil => simp [removeById]
  | cons x xs ih =>
      by_cases hx : x.id = id
      · simp [removeById, hx]
      · rw [removeById, if_neg hx]
        cases hrec : removeById id xs with
        | none =>
            simp only [Option.map_none', true_iff]
            intro y hy
            rcases List.mem_cons.1 hy with h1 | h2
            · subst h1; exact hx
            · exact (ih.1 hrec) y h2
        | some pr =>
            rw [Option.map_some']
            refine iff_of_false (by simp) ?_
            intro hall
            have hn : removeById id xs = none := by
              rw [ih]
              intro y hy
              exact hall y (List.mem_cons_of_mem x hy)
            rw [hn] at hrec
            cases hrec

theorem removeById_some (id : String) : ∀ {l : List Item} {p : String} {rest : List Item},
    removeById id l = some (p, rest) →
    (∀ x ∈ rest, x ∈ l) ∧ rest.length + 1 = l.length ∧
      idCount id rest + 1 = idCount id l ∧
      ∃ y, y ∈ l ∧ y.id = id ∧ y.publicId = p := by
  intro l
  induction l with
  | nil => intro p rest h; cases h
  | cons x xs ih =>
      intro p rest h
      by_cases hx : x.id = id
      · rw [removeById, if_pos hx] at h
        simp only [Option.some.injEq, Prod.mk.injEq] at h
        obtain ⟨hp, hrest⟩ := h
        subst hrest
        refine ⟨fun y hy => List.mem_cons_of_mem x hy, rfl, ?_,
          x, List.mem_cons_self x xs, hx, hp⟩
        have hxid : (x.id == id) = true := by simp [hx]
        simp [idCount, List.countP_cons, hxid]
      · rw [removeById, if_neg hx] at h
        cases hrec : removeById id xs with
        | none => rw [hrec] at h; cases h
        | some pr =>
            rw [hrec] at h
            simp only [Option.map_some', Option.some.injEq] at h
            rcases pr with ⟨p2, rest2⟩
            simp only [Prod.mk.injEq] at h
            obtain ⟨hp, hrest⟩ := h
            subst hp
            subst hrest
            rcases ih hrec with ⟨hmem, hlen, hcount, y, hy, hyid, hypid⟩
            refine ⟨?_, by simpa using hlen, ?_, y, List.mem_cons_of_mem x hy, hyid, hypid⟩
            · intro z hz
              rcases List.mem_cons.1 hz with h1 | h2
              · subst h1; exact List.mem_cons_self _ _
              · exact List.mem_cons_of_mem x (hmem z h2)
            · have hxid : (x.id == id) = false := by simp [hx]
              simp only [idCount, List.countP_cons, hxid] at hcount ⊢
              omega

theorem catalogInv_iff (db : Catalog) : catalogInv db = true ↔
    (∀ x ∈ db.josh, x.category = "josh") ∧ (∀ x ∈ db.family, x.category = "family") ∧
      (∀ x ∈ db.friends, x.category = "friends") := by
  simp [catalogInv, List.all_eq_true, and_assoc]

theorem catalogInv_pushAll {db : Catalog} {c : String} {items : List Item}
    (hdb : catalogInv db = true) (hc : c ∈ validCategories)
    (hitems : ∀ x ∈ items, x.category = c) : catalogInv (pushAll db c items) = true := by
  rcases (catalogInv_iff db).1 hdb with ⟨h1, h2, h3⟩
  have happ : ∀ (l : List Item) (lab : String), (∀ x ∈ l, x.category = lab) →
      ∀ x ∈ l ++ items, c = lab → x.category = lab := by
    intro l lab hl x hx hc2
    rcases List.mem_append.1 hx with h | h
    · exact hl x h
    · rw [hitems x h, hc2]
  simp only [validCategories, List.mem_cons, List.mem_singleton,
    List.not_mem_nil, or_false] at hc
  rcases hc with rfl | rfl | rfl
  · refine (catalogInv_iff _).2 ⟨?_, ?_, ?_⟩ <;>
      simp only [pushAll, if_pos, reduceIte]
    · exact fun x hx => happ db.josh "josh" h1 x hx rfl
    · exact h2
    · exact h3
  · refine (catalogInv_iff _).2 ⟨?_, ?_, ?_⟩ <;>
      simp only [pushAll, if_pos, reduceIte]
    · exact h1
    · exact fun x hx => happ db.family "family" h2 x hx rfl
    · exact h3
  · refine (catalogInv_iff _).2 ⟨?_, ?_, ?_⟩ <;>
      simp only [pushAll, if_pos, reduceIte]
    · exact h1
    · exact h2
    · exact fun x hx => happ db.friends "friends" h3 x hx rfl

theorem mkUploadedItem_category (ck : Clock) (c : String) (caps : List String)
    (i : Nat) (r : UploadResult) : (mkUploadedItem ck c caps i r).category = c := rfl

theorem uploadItems_category {ck : Clock} {c : String} {caps : List String}
    {files : List (Except String UploadResult)} {items : List Item}
    (h : settleAll (mapIdxFrom (fun i f => Except.map (mkUploadedItem ck c caps i) f) 0 files) =
      .ok items) : ∀ x ∈ items, x.category = c := by
  intro x hx
  have hmem := settleAll_ok_mem h hx
  rcases mem_mapIdxFrom hmem with ⟨i, a, ha, hb⟩
  cases a with
  | error e => simp [Except.map] at hb
  | ok r =>
      simp only [Except.map, Except.ok.injEq] at hb
      rw [hb]
      rfl

theorem storeInv_postUpload (s : Option Catalog) (category : String)
    (files : List (Except String UploadResult)) (caps : CaptionSpec) (ck : Clock)
    (hs : ∀ db, s = some db → catalogInv db = true) :
    ∀ db2, (postUpload s category files caps ck).2 = some db2 → catalogInv db2 = true := by
  intro db2 h
  by_cases h1 : files.isEmpty
  · rw [postUpload, if_pos h1] at h
    exact hs db2 h
  · by_cases h2 : category ∈ validCategories
    · rw [postUpload, if_neg h1, if_neg (not_not_intro h2)] at h
      cases hsa : settleAll (mapIdxFrom
          (fun i f => Except.map (mkUploadedItem ck category caps.toArray i) f) 0 files) with
      | error e =>
          simp only [hsa] at h
          exact hs db2 h
      | ok items =>
          simp only [hsa, Option.some.injEq] at h
          subst h
          have hdb : catalogInv (s.getD emptyCatalog) = true := by
            cases s with
            | none => rfl
            | some db => exact hs db rfl
          exact catalogInv_pushAll hdb h2 (uploadItems_category hsa)
    · rw [postUpload, if_neg h1, if_pos h2] at h
      exact hs db2 h

theorem storeInv_deleteById (s : Option Catalog) (id : String) (destroyOk : String → Bool)
    (hs : ∀ db, s = some db → catalogInv db = true) :
    ∀ db2, (deleteById s id destroyOk).2.1 = some db2 → catalogInv db2 = true := by
  intro db2 h
  cases s with
  | none => cases h
  | some db =>
      have hinv := hs db rfl
      rcases (catalogInv_iff db).1 hinv with ⟨h1, h2, h3⟩
      have hfin : ∀ (dbx : Catalog) (pid : String),
          catalogInv dbx = true →
          (deleteById.deleteFinish (some db) dbx pid destroyOk).2.1 = some db2 →
          catalogInv db2 = true := by
        intro dbx pid hdbx heq
        rw [deleteById.deleteFinish] at heq
        by_cases hpid : pid = ""
        · rw [if_pos hpid] at heq
          simp only [Option.some.injEq] at heq
          subst heq
          exact hdbx
        · rw [if_neg hpid] at heq
          by_cases hok : destroyOk pid = true
          · rw [if_pos hok] at heq
            simp only [Option.some.injEq] at heq
            subst heq
            exact hdbx
          · rw [if_neg hok] at heq
            simp only [Option.some.injEq] at heq
            subst heq
            exact hinv
      rw [deleteById] at h
      cases hj : removeById id db.josh with
      | some pr =>
          rw [hj] at h
          refine hfin _ pr.1 ?_ h
          refine (catalogInv_iff _).2 ⟨?_, h2, h3⟩
          intro x hx
          exact h1 x ((removeById_some id hj).1 x hx)
      | none =>
          rw [hj] at h
          cases hf : removeById id db.family with
          | some pr =>
              rw [hf] at h
              refine hfin _ pr.1 ?_ h
              refine (catalogInv_iff _).2 ⟨h1, ?_, h3⟩
              intro x hx
              exact h2 x ((removeById_some id hf).1 x hx)
          | none =>
              rw [hf] at h
              cases hr : removeById id db.friends with
              | some pr =>
                  rw [hr] at h
                  refine hfin _ pr.1 ?_ h
                  refine (catalogInv_iff _).2 ⟨h1, h2, ?_⟩
                  intro x hx
                  exact h3 x ((removeById_some id hr).1 x hx)
              | none =>
                  rw [hr] at h
                  simp only [Option.some.injEq] at h
                  subst h
                  exact hinv

theorem fetchFromCloudinary_category (ck : Clock) (c : String)
    (r : Except Unit (List Resource)) : ∀ x ∈ fetchFromCloudinary ck c r, x.category = c := by
  intro x hx
  rcases mem_mapIdxFrom hx with ⟨i, a, ha, hb⟩
  rw [hb]
  rfl

theorem syncCategory_category (ex : Option Catalog) (ck : Clock) (c : String)
    (r : Except Unit (List Resource)) : ∀ x ∈ syncCategory ex ck c r, x.category = c := by
  intro x hx
  rw [syncCategory.eq_def] at hx
  by_cases hlen : (fetchOutcome r).length > 0
  · rw [if_pos hlen] at hx
    rcases mem_mapIdxFrom hx with ⟨i, a, ha, hb⟩
    rw [hb]
    rfl
  · rw [if_neg hlen] at hx
    cases ex with
    | none => cases hx
    | some exdb =>
        simp only at hx
        by_cases hprev : ((bucketOf? exdb c).getD []).length > 0
        · rw [if_pos hprev] at hx
          rcases List.mem_map.1 hx with ⟨y, hy, hxy⟩
          rw [← hxy]
        · rw [if_neg hprev] at hx
          cases hx

theorem catalogInv_sync (ex : Option Catalog) (ping : Bool) (ck : Clock)
    (R : String → Except Unit (List Resource)) :
    ∀ db2, syncCloudinaryToDatabase ex ping ck R = some db2 → catalogInv db2 = true := by
  intro db2 h
  rw [syncCloudinaryToDatabase] at h
  by_cases hp : ping = true
  · rw [if_pos hp] at h
    simp only [Option.some.injEq] at h
    subst h
    exact (catalogInv_iff _).2
      ⟨syncCategory_category ex ck "josh" (R "josh"),
       syncCategory_category ex ck "family" (R "family"),
       syncCategory_category ex ck "friends" (R "friends")⟩
  · rw [if_neg hp] at h
    cases h

theorem catalogInv_initResult (s : Option Catalog) (ck : Clock)
    (R : String → Except Unit (List Resource))
    (hs : ∀ db, s = some db → catalogInv db = true) :
    catalogInv (initImagesDatabase s ck R).1 = true ∧
      (∀ db2, (initImagesDatabase s ck R).2.1 = some db2 → catalogInv db2 = true) := by
  have hfresh : catalogInv
      { josh := fetchFromCloudinary ck "josh" (R "josh")
        family := fetchFromCloudinary ck "family" (R "family")
        friends := fetchFromCloudinary ck "friends" (R "friends") } = true :=
    (catalogInv_iff _).2
      ⟨fetchFromCloudinary_category ck "josh" (R "josh"),
       fetchFromCloudinary_category ck "family" (R "family"),
       fetchFromCloudinary_category ck "friends" (R "friends")⟩
  cases s with
  | none =>
      refine ⟨hfresh, ?_⟩
      intro db2 h
      simp only [initImagesDatabase, Option.some.injEq] at h
      subst h
      exact hfresh
  | some db =>
      by_cases hz : totalImages db = 0
      · constructor
        · simp only [initImagesDatabase, if_pos hz]
          exact hfresh
        · intro db2 h
          simp only [initImagesDatabase, if_pos hz, Option.some.injEq] at h
          subst h
          exact hfresh
      · constructor
        · simp only [initImagesDatabase, if_neg hz]
          exact hs db rfl
        · intro db2 h
          simp only [initImagesDatabase, if_neg hz, Option.some.injEq] at h
          subst h
          exact hs db rfl

theorem catalogInv_restampView (db : Catalog) : catalogInv (restampView db) = true := by
  refine (catalogInv_iff _).2 ⟨?_, ?_, ?_⟩ <;>
    intro x hx <;>
    rcases List.mem_map.1 hx with ⟨y, hy, hxy⟩ <;>
    rw [← hxy]

theorem settleAll_mapIdx_ids {ck : Clock} {c : String} {caps : List String} :
    ∀ (files : List (Except String UploadResult)) (k : Nat) (items : List Item),
    settleAll (mapIdxFrom (fun i f => Except.map (mkUploadedItem ck c caps i) f) k files) =
      .ok items →
    items.map (fun x => x.id) =
      (List.range' k files.length).map (fun i => Nat.repr (ck.now i) ++ Nat.repr i) := by
  intro files
  induction files with
  | nil =>
      intro k items h
      cases h
      rfl
  | cons f fs ih =>
      intro k items h
      cases f with
      | error e => simp [mapIdxFrom, settleAll] at h
      | ok r =>
          have hhead : mapIdxFrom (fun i f => Except.map (mkUploadedItem ck c caps i) f) k
              (Except.ok r :: fs) =
              Except.ok (mkUploadedItem ck c caps k r) ::
                mapIdxFrom (fun i f => Except.map (mkUploadedItem ck c caps i) f) (k + 1) fs := rfl
          rw [hhead] at h
          simp only [settleAll] at h
          cases hs : settleAll (mapIdxFrom
              (fun i f => Except.map (mkUploadedItem ck c caps i) f) (k + 1) fs) with
          | error e2 => rw [hs] at h; simp [Except.map] at h
          | ok its =>
              rw [hs] at h
              simp only [Except.map, Except.ok.injEq] at h
              subst h
              rw [List.length_cons, List.range'_succ, List.map_cons, List.map_cons]
              rw [ih (k + 1) its hs]
              rfl

theorem deleteById_absent {db : Catalog} {id : String} (destroyOk : String → Bool)
    (h : ∀ x ∈ db.allItems, x.id ≠ id) :
    deleteById (some db) id destroyOk = (.notFound, some db, []) := by
  have hj : removeById id db.josh = none := by
    rw [removeById_none_iff]
    intro x hx
    exact h x (by simp [Catalog.allItems, hx])
  have hf : removeById id db.family = none := by
    rw [removeById_none_iff]
    intro x hx
    exact h x (by simp [Catalog.allItems, hx])
  have hr : removeById id db.friends = none := by
    rw [removeById_none_iff]
    intro x hx
    exact h x (by simp [Catalog.allItems, hx])
  simp only [deleteById, hj, hf, hr]

theorem idCount_zero_iff (id : String) (l : List Item) :
    idCount id l = 0 ↔ ∀ x ∈ l, x.id ≠ id := by
  simp [idCount, List.countP_eq_zero]

/-- Number of items of the whole catalog carrying the given id. -/
def idCountAll (id : String) (db : Catalog) : Nat :=
  idCount id db.josh + idCount id db.family + idCount id db.friends

theorem idCountAll_zero_iff (id : String) (db : Catalog) :
    idCountAll id db = 0 ↔ ∀ x ∈ db.allItems, x.id ≠ id := by
  constructor
  · intro h x hx
    have h3 : idCount id db.josh = 0 ∧ idCount id db.family = 0 ∧
        idCount id db.friends = 0 := by
      unfold idCountAll at h
      omega
    rcases List.mem_append.1 hx with h12 | hfr
    · rcases List.mem_append.1 h12 with hj | hfa
      · exact (idCount_zero_iff id db.josh).1 h3.1 x hj
      · exact (idCount_zero_iff id db.family).1 h3.2.1 x hfa
    · exact (idCount_zero_iff id db.friends).1 h3.2.2 x hfr
  · intro h
    have hj : idCount id db.josh = 0 :=
      (idCount_zero_iff id db.josh).2 fun x hx => h x (by simp [Catalog.allItems, hx])
    have hf : idCount id db.family = 0 :=
      (idCount_zero_iff id db.family).2 fun x hx => h x (by simp [Catalog.allItems, hx])
    have hr : idCount id db.friends = 0 :=
      (idCount_zero_iff id db.friends).2 fun x hx => h x (by simp [Catalog.allItems, hx])
    simp [idCountAll, hj, hf, hr]

theorem deleteById_unique {db : Catalog} {id : String} (destroyOk : String → Bool)
    (hone : idCountAll id db = 1) (hok : ∀ p, destroyOk p = true) :
    ∃ db2, deleteById (some db) id destroyOk =
        ((.ok : DeleteResponse), some db2,
          (deleteById (some db) id destroyOk).2.2) ∧
      idCountAll id db2 = 0 ∧ totalImages db2 + 1 = totalImages db := by
  have hfin : ∀ (db2 : Catalog) (pid : String),
      deleteById.deleteFinish (some db) db2 pid destroyOk =
        ((.ok : DeleteResponse), some db2,
          (deleteById.deleteFinish (some db) db2 pid destroyOk).2.2) := by
    intro db2 pid
    rw [deleteById.deleteFinish]
    by_cases hpid : pid = ""
    · simp [hpid]
    · simp [hpid, hok pid]
  cases hj : removeById id db.josh with
  | some pr =>
      rcases removeById_some id hj with ⟨hmem, hlen, hcount, y, hy, hyid, hypid⟩
      refine ⟨{ db with josh := pr.2 }, ?_, ?_, ?_⟩
      · simp only [deleteById, hj]
        exact hfin _ pr.1
      · simp only [idCountAll] at hone ⊢
        omega
      · simp only [totalImages] at *
        omega
  | none =>
      have hjz : idCount id db.josh = 0 :=
        (idCount_zero_iff id db.josh).2 ((removeById_none_iff id db.josh).1 hj)
      cases hf : removeById id db.family with
      | some pr =>
          rcases removeById_some id hf with ⟨hmem, hlen, hcount, y, hy, hyid, hypid⟩
          refine ⟨{ db with family := pr.2 }, ?_, ?_, ?_⟩
          · simp only [deleteById, hj, hf]
            exact hfin _ pr.1
          · simp only [idCountAll] at hone ⊢
            omega
          · simp only [totalImages] at *
            omega
      | none =>
          have hfz : idCount id db.family = 0 :=
            (idCount_zero_iff id db.family).2 ((removeById_none_iff id db.family).1 hf)
          cases hr : removeById id db.friends with
          | some pr =>
              rcases removeById_some id hr with ⟨hmem, hlen, hcount, y, hy, hyid, hypid⟩
              refine ⟨{ db with friends := pr.2 }, ?_, ?_, ?_⟩
              · simp only [deleteById, hj, hf, hr]
                exact hfin _ pr.1
              · simp only [idCountAll] at hone ⊢
                omega
              · simp only [totalImages] at *
                omega
          | none =>
              exfalso
              have hrz : idCount id db.friends = 0 :=
                (idCount_zero_iff id db.friends).2 ((removeById_none_iff id db.friends).1 hr)
              simp [idCountAll, hjz, hfz, hrz] at hone

theorem deleteById_store_unchanged (s : Option Catalog) (id : String)
    (destroyOk : String → Bool) (h : (deleteById s id destroyOk).1 ≠ .ok) :
    (deleteById s id destroyOk).2.1 = s := by
  cases s with
  | none => rfl
  | some db =>
      have hfin : ∀ (db2 : Catalog) (pid : String),
          (deleteById.deleteFinish (some db) db2 pid destroyOk).1 ≠ .ok →
          (deleteById.deleteFinish (some db) db2 pid destroyOk).2.1 = some db := by
        intro db2 pid hne
        rw [deleteById.deleteFinish] at hne ⊢
        by_cases hpid : pid = ""
        · simp [hpid] at hne
        · by_cases hok : destroyOk pid = true
          · simp [hpid, hok] at hne
          · simp [hpid, hok]
      cases hj : removeById id db.josh with
      | some pr =>
          simp only [deleteById, hj] at h ⊢
          exact hfin _ pr.1 h
      | none =>
          cases hf : removeById id db.family with
          | some pr =>
              simp only [deleteById, hj, hf] at h ⊢
              exact hfin _ pr.1 h
          | none =>
              cases hr : removeById id db.friends with
              | some pr =>
                  simp only [deleteById, hj, hf, hr] at h ⊢
                  exact hfin _ pr.1 h
              | none =>
                  simp only [deleteById, hj, hf, hr]

theorem deleteById_remote_failure {db : Catalog} {id pid : String}
    (destroyOk : String → Bool) (hfound : findPublicId db id = some pid)
    (hpid : pid ≠ "") (hfail : destroyOk pid = false) :
    deleteById (some db) id destroyOk = (.serverError, some db, [pid]) := by
  have hfin : ∀ db2 : Catalog,
      deleteById.deleteFinish (some db) db2 pid destroyOk = (.serverError, some db, [pid]) := by
    intro db2
    rw [deleteById.deleteFinish]
    simp [hpid, hfail]
  rw [findPublicId] at hfound
  cases hj : removeById id db.josh with
  | some pr =>
      rw [hj] at hfound
      simp only [Option.some.injEq] at hfound
      simp only [deleteById, hj, hfound]
      exact hfin _
  | none =>
      rw [hj] at hfound
      cases hf : removeById id db.family with
      | some pr =>
          rw [hf] at hfound
          simp only [Option.some.injEq] at hfound
          simp only [deleteById, hj, hf, hfound]
          exact hfin _
      | none =>
          rw [hf] at hfound
          cases hr : removeById id db.friends with
          | some pr =>
              rw [hr] at hfound
              simp only [Option.some.injEq] at hfound
              simp only [deleteById, hj, hf, hr, hfound]
              exact hfin _
          | none =>
              rw [hr] at hfound
              cases hfound

theorem mapIdxFrom_error_mem {g : Nat → UploadResult → Item} {e : String} :
    ∀ {files : List (Except String UploadResult)} {k : Nat}, Except.error e ∈ files →
    Except.error e ∈ mapIdxFrom (fun i f => Except.map (g i) f) k files := by
  intro files
  induction files with
  | nil => intro k h; cases h
  | cons f fs ih =>
      intro k h
      rcases List.mem_cons.1 h with h1 | h2
      · subst h1
        exact List.mem_cons_self _ _
      · exact List.mem_cons_of_mem _ (ih h2)

theorem postUpload_anyError (persisted : Option Catalog) (category : String)
    (files : List (Except String UploadResult)) (caps : CaptionSpec) (ck : Clock)
    (h1 : ¬ files.isEmpty) (h2 : category ∈ validCategories)
    (he : ∃ e, Except.error e ∈ files) :
    ∃ msg, postUpload persisted category files caps ck = (.serverError msg, persisted) := by
  rcases he with ⟨e, he⟩
  rcases settleAll_error_of_mem
      (mapIdxFrom_error_mem (g := mkUploadedItem ck category caps.toArray) (k := 0) he)
      with ⟨e2, he2⟩
  refine ⟨e2, ?_⟩
  rw [postUpload, if_neg h1, if_neg (not_not_intro h2)]
  simp only [he2]

theorem postUpload_allOk (persisted : Option Catalog) (category : String)
    (files : List (Except String UploadResult)) (caps : CaptionSpec) (ck : Clock)
    (h1 : ¬ files.isEmpty) (h2 : category ∈ validCategories)
    (hall : ∀ f ∈ files, ∃ r, f = .ok r) :
    ∃ items, postUpload persisted category files caps ck =
        (.created items, some (pushAll (persisted.getD emptyCatalog) category items)) ∧
      items.length = files.length := by
  have hmapped : ∀ f ∈ mapIdxFrom
      (fun i f => Except.map (mkUploadedItem ck category caps.toArray i) f) 0 files,
      ∃ a, f = .ok a := by
    intro f hf
    rcases mem_mapIdxFrom hf with ⟨i, a, ha, hb⟩
    rcases hall a ha with ⟨r, hr⟩
    subst hr
    exact ⟨mkUploadedItem ck category caps.toArray i r, hb⟩
  rcases settleAll_ok_of_all hmapped with ⟨items, hitems⟩
  refine ⟨items, ?_, ?_⟩
  · rw [postUpload, if_neg h1, if_neg (not_not_intro h2)]
    simp only [hitems]
  · rw [settleAll_ok_length hitems, length_mapIdxFrom]

/-- Concrete clock for witnesses: Date.now() frozen at 17, fixed ISO strings. -/
def ckSample : Clock :=
  { now := fun _ => 17
    iso := fun _ => "2024-10-27T00:00:00.000Z"
    isoOf := fun s => s }

/-- Concrete Cloudinary upload result for witnesses. -/
def urSample (n : Nat) : UploadResult :=
  { secureUrl := "https://res.example/josh-farewell/family/f" ++ Nat.repr n ++ ".jpg"
    publicId := "josh-farewell/family/f" ++ Nat.repr n
    width := 100
    height := 80
    format := "jpg"
    resourceType := "image" }

/-- Concrete catalog with one family item for witnesses. -/
def dbSample : Catalog :=
  { josh := []
    family := [{ id := "42"
                 url := "https://res.example/josh-farewell/family/old.jpg"
                 publicId := "josh-farewell/family/old"
                 category := "family"
                 caption := "old"
                 uploadedAt := "2024-01-01T00:00:00.000Z"
                 width := 10
                 height := 10
                 format := "jpg"
                 resourceType := "image" }]
    friends := [] }

theorem or_absorb_of_imp {a b : Bool} (h : a = true → b = true) : (a || b) = b := by
  cases hb : b
  · cases ha : a
    · rfl
    · rw [h ha] at hb
      cases hb
  · simp

theorem strIncludes_farewell_josh {hint : String}
    (h : strIncludes hint "/josh-farewell/josh/" = true) :
    strIncludes hint "/josh/" = true := by
  apply strIncludes_of_concat hint "/josh-farewell" "/josh/" ""
  have heq : ("/josh-farewell" ++ "/josh/" ++ "" : String) = "/josh-farewell/josh/" := by decide
  rw [heq]
  exact h

theorem strIncludes_farewell_friends {hint : String}
    (h : strIncludes hint "/josh-farewell/friends/" = true) :
    strIncludes hint "/friends/" = true := by
  apply strIncludes_of_concat hint "/josh-farewell" "/friends/" ""
  have heq : ("/josh-farewell" ++ "/friends/" ++ "" : String) = "/josh-farewell/friends/" := by decide
  rw [heq]
  exact h

theorem strIncludes_farewell_family {hint : String}
    (h : strIncludes hint "/josh-farewell/family/" = true) :
    strIncludes hint "/family/" = true := by
  apply strIncludes_of_concat hint "/josh-farewell" "/family/" ""
  have heq : ("/josh-farewell" ++ "/family/" ++ "" : String) = "/josh-farewell/family/" := by decide
  rw [heq]
  exact h

theorem hintBranch_eq (hint fb : String) :
    (if strIncludes hint "/josh-farewell/josh/" || strIncludes hint "/josh/" then "josh"
     else if strIncludes hint "/josh-farewell/friends/" || strIncludes hint "/friends/" then "friends"
     else if strIncludes hint "/josh-farewell/family/" || strIncludes hint "/family/" then "family"
     else fb) =
    (match hintPriority.find? (fun l => strIncludes hint ("/" ++ l ++ "/")) with
     | some l => l
     | none => fb) := by
  have e1 : ("/" ++ "josh" ++ "/" : String) = "/josh/" := by decide
  have e2 : ("/" ++ "friends" ++ "/" : String) = "/friends/" := by decide
  have e3 : ("/" ++ "family" ++ "/" : String) = "/family/" := by decide
  rw [or_absorb_of_imp strIncludes_farewell_josh,
    or_absorb_of_imp strIncludes_farewell_friends,
    or_absorb_of_imp strIncludes_farewell_family]
  simp only [hintPriority, List.find?, e1, e2, e3]
  by_cases h1 : strIncludes hint "/josh/" = true
  · simp [h1]
  · rw [Bool.not_eq_true] at h1
    by_cases h2 : strIncludes hint "/friends/" = true
    · simp [h1, h2]
    · rw [Bool.not_eq_true] at h2
      by_cases h3 : strIncludes hint "/family/" = true
      · simp [h1, h2, h3]
      · rw [Bool.not_eq_true] at h3
        simp [h1, h2, h3]

/-- C3: the classifier embedded from the source equals, on every input, the
spec's classify contract — a present declared category that belongs to the
fixed label set is returned (winning over the path hint and the bucket);
otherwise the first fixed label whose folder form occurs in the path hint, in
a fixed priority order; otherwise the fallback category — and the function is
total, returning a member of the fixed label set whenever the fallback is
one. -/
theorem classify_meets_spec :
    (∀ (declared : Option String) (hint fb : String),
      classify declared hint fb = classifySpec declared hint fb) ∧
    (∀ (declared : Option String) (hint fb : String), fb ∈ validCategories →
      classify declared hint fb ∈ validCategories) := by
  constructor
  · intro declared hint fb
    cases declared with
    | none =>
        rw [classify, classifySpec]
        simp only [Option.getD_none]
        rw [if_pos (Or.inl trivial)]
        exact hintBranch_eq hint fb
    | some c =>
        rw [classify, classifySpec]
        simp only [Option.getD_some]
        by_cases hc : c ∈ validCategories
        · have hne : ¬(c = "" ∨ c ∉ validCategories) := by
            push_neg
            constructor
            · intro hceq
              subst hceq
              simp [validCategories] at hc
            · exact hc
          rw [if_neg hne, if_pos hc]
        · rw [if_pos (Or.inr hc), if_neg hc]
          exact hintBranch_eq hint fb
  · intro declared hint fb hfb
    rw [classify]
    split_ifs with h1 h2 h3 h4
    · decide
    · decide
    · decide
    · exact hfb
    · rw [not_or, not_not] at h1
      exact h1.2

/-- C3 witness: concrete runs — an absent declared category with a josh path
hint classifies as josh (and equals the spec classifier), and the result is a
valid label. -/
theorem classify_meets_spec_witness :
    classify none "prefix/josh/x.jpg" "friends" = classifySpec none "prefix/josh/x.jpg" "friends" ∧
    classify (some "friends") "prefix/family/x.jpg" "family" ∈ validCategories := by
  exact ⟨classify_meets_spec.1 none "prefix/josh/x.jpg" "friends",
    classify_meets_spec.2 (some "friends") "prefix/family/x.jpg" "family" (by decide)⟩

/-- C1: category consistency invariant — on every persisted store reachable
through the system's operations (uploads, deletes, reads that reconcile, and
sync runs), every item's category field equals the bucket label containing
it; moreover the re-stamping view served by GET /api/images satisfies the
invariant unconditionally. -/
theorem category_invariant_holds :
    (∀ s, ReachableStore s → ∀ db, s = some db → catalogInv db = true) ∧
    (∀ db, catalogInv (restampView db) = true) := by
  constructor
  · intro s hs
    induction hs with
    | start =>
        intro db h
        cases h
    | upload s2 category files caps ck hsr ih =>
        exact storeInv_postUpload s2 category files caps ck ih
    | del s2 id destroyOk hsr ih =>
        exact storeInv_deleteById s2 id destroyOk ih
    | readInit s2 ck R hsr ih =>
        exact (catalogInv_initResult s2 ck R ih).2
    | sync s2 ping ck R hsr ih =>
        intro db h
        cases hsy : syncCloudinaryToDatabase s2 ping ck R with
        | none =>
            rw [hsy] at h
            simp only [Option.map_none', Option.getD_none] at h
            exact ih db h
        | some db2 =>
            rw [hsy] at h
            simp only [Option.map_some', Option.getD_some, Option.some.injEq] at h
            subst h
            exact catalogInv_sync s2 ping ck R db2 hsy
  · exact catalogInv_restampView

/-- C1 witness: the store produced by one concrete upload from the absent
store satisfies the invariant. -/
theorem category_invariant_holds_witness :
    catalogInv (pushAll emptyCatalog "family"
      [mkUploadedItem ckSample "family" [] 0 (urSample 1)]) = true := by
  have hre : ReachableStore
      (postUpload none "family" [Except.ok (urSample 1)] CaptionSpec.omitted ckSample).2 :=
    ReachableStore.upload none "family" [Except.ok (urSample 1)] CaptionSpec.omitted ckSample
      ReachableStore.start
  exact category_invariant_holds.1 _ hre
    (pushAll emptyCatalog "family" [mkUploadedItem ckSample "family" [] 0 (urSample 1)]) rfl

/-- C2 counterexample: a batch of three files whose second upload fails at
the remote store commits nothing — the persisted catalog is returned
unchanged (still holding only its one prior item) and the response is a bare
500 error carrying no successes, not two committed items plus one error. -/
theorem batch_partial_failure_counterexample :
    postUpload (some dbSample) "family"
      [Except.ok (urSample 1), Except.error "boom", Except.ok (urSample 3)]
      CaptionSpec.omitted ckSample = (.serverError "boom", some dbSample) := by
  rfl

/-- C2 (amended): batch upload is all-or-nothing — if any file in the batch
fails at the remote store, the response is a single error and the persisted
Catalog is unchanged (already-confirmed uploads are discarded, not
committed); only when every file succeeds are all the items appended to the
category bucket and persisted, one per file. -/
theorem batch_all_or_nothing (persisted : Option Catalog) (category : String)
    (files : List (Except String UploadResult)) (caps : CaptionSpec) (ck : Clock)
    (h1 : ¬ files.isEmpty = true) (h2 : category ∈ validCategories) :
    ((∃ e, Except.error e ∈ files) →
      ∃ msg, postUpload persisted category files caps ck = (.serverError msg, persisted)) ∧
    ((∀ f ∈ files, ∃ r, f = .ok r) →
      ∃ items, postUpload persisted category files caps ck =
          (.created items, some (pushAll (persisted.getD emptyCatalog) category items)) ∧
        items.length = files.length) :=
  ⟨postUpload_anyError persisted category files caps ck h1 h2,
   postUpload_allOk persisted category files caps ck h1 h2⟩

/-- C2 witness: with a concrete two-file batch whose second file fails, the
amended theorem yields the unchanged-store error outcome. -/
theorem batch_all_or_nothing_witness :
    ∃ msg, postUpload (some dbSample) "family"
        [Except.ok (urSample 1), Except.error "x"] CaptionSpec.omitted ckSample =
      (.serverError msg, some dbSample) :=
  (batch_all_or_nothing (some dbSample) "family"
      [Except.ok (urSample 1), Except.error "x"] CaptionSpec.omitted ckSample
      (by decide) (by decide)).1
    ⟨"x", List.mem_cons_of_mem _ (List.mem_cons_self _ _)⟩

/-- C4: during a sync-script reconciliation that writes a catalog, every
category whose Cloudinary query failed or returned no objects keeps the
previously persisted non-empty bucket, each item re-stamped with the bucket
label, instead of being replaced by an empty list. -/
theorem sync_preserves_persisted_on_fetch_failure (ex : Catalog) (ping : Bool) (ck : Clock)
    (R : String → Except Unit (List Resource)) (db2 : Catalog)
    (h : syncCloudinaryToDatabase (some ex) ping ck R = some db2) :
    (fetchOutcome (R "josh") = [] → ex.josh ≠ [] →
      db2.josh = ex.josh.map (fun i => { i with category := "josh" })) ∧
    (fetchOutcome (R "family") = [] → ex.family ≠ [] →
      db2.family = ex.family.map (fun i => { i with category := "family" })) ∧
    (fetchOutcome (R "friends") = [] → ex.friends ≠ [] →
      db2.friends = ex.friends.map (fun i => { i with category := "friends" })) := by
  rw [syncCloudinaryToDatabase] at h
  by_cases hp : ping = true
  · rw [if_pos hp] at h
    simp only [Option.some.injEq] at h
    subst h
    refine ⟨?_, ?_, ?_⟩ <;> intro hf hne <;>
      simp only [syncCategory, hf, List.length_nil, gt_iff_lt, Nat.lt_irrefl, if_neg,
        ite_false, bucketOf?, reduceIte, Option.getD_some] <;>
      rw [if_pos (by simpa [List.length_pos] using hne)] <;>
      try rfl
  · rw [if_neg hp] at h
    cases h

/-- C4 witness: with the remote provider down (every folder listing throws),
a sync over a store holding one family item keeps that item re-stamped. -/
theorem sync_preserves_persisted_on_fetch_failure_witness :
    ∃ db2, syncCloudinaryToDatabase (some dbSample) true ckSample (fun _ => .error ()) = some db2 ∧
      db2.family = dbSample.family.map (fun i => { i with category := "family" }) := by
  cases hsy : syncCloudinaryToDatabase (some dbSample) true ckSample (fun _ => .error ()) with
  | none => cases hsy
  | some db2 =>
      exact ⟨db2, rfl,
        (sync_preserves_persisted_on_fetch_failure dbSample true ckSample
          (fun _ => .error ()) db2 hsy).2.1 rfl (by decide)⟩

/-- C5: the images router's reconciliation runs on a read exactly when the
persisted store is absent or counts zero items: the fetch flag is true iff
the store is absent or empty; a store with at least one item is returned
untouched with no remote fetch; and whenever the fetch ran, the resulting
catalog is persisted before being returned. -/
theorem reconcile_trigger_iff (persisted : Option Catalog) (ck : Clock)
    (R : String → Except Unit (List Resource)) :
    ((initImagesDatabase persisted ck R).2.2 = true ↔
      persisted = none ∨ ∃ db, persisted = some db ∧ totalImages db = 0) ∧
    (∀ db, persisted = some db → totalImages db ≠ 0 →
      initImagesDatabase persisted ck R = (db, persisted, false)) ∧
    ((initImagesDatabase persisted ck R).2.2 = true →
      (initImagesDatabase persisted ck R).2.1 = some (initImagesDatabase persisted ck R).1) := by
  cases persisted with
  | none =>
      refine ⟨?_, ?_, ?_⟩
      · simp [initImagesDatabase]
      · intro db h
        cases h
      · intro h
        rfl
  | some db =>
      by_cases hz : totalImages db = 0
      · refine ⟨?_, ?_, ?_⟩
        · simp only [initImagesDatabase, if_pos hz]
          simp [hz]
        · intro db2 h hne
          simp only [Option.some.injEq] at h
          subst h
          exact absurd hz hne
        · intro h
          simp only [initImagesDatabase, if_pos hz]
      · refine ⟨?_, ?_, ?_⟩
        · simp [initImagesDatabase, hz]
        · intro db2 h hne
          simp only [Option.some.injEq] at h
          subst h
          simp only [initImagesDatabase, if_neg hz]
        · intro h
          simp only [initImagesDatabase, if_neg hz] at h
          cases h

/-- C5 witness: a persisted store holding one item is returned untouched
with no remote fetch. -/
theorem reconcile_trigger_iff_witness :
    initImagesDatabase (some dbSample) ckSample (fun _ => .error ()) =
      (dbSample, some dbSample, false) :=
  (reconcile_trigger_iff (some dbSample) ckSample (fun _ => .error ())).2.1
    dbSample rfl (by decide)

/-- C6: deleting an id absent from every bucket answers NotFound with no
remote destroy call and no change to the persisted catalog; deleting an id
that occurs exactly once (the uniqueness invariant) succeeds, removes
exactly that item, and a second delete of the same id answers NotFound. -/
theorem delete_notFound_and_removal (db : Catalog) (id : String)
    (destroyOk : String → Bool) :
    ((∀ x ∈ db.allItems, x.id ≠ id) →
      deleteById (some db) id destroyOk = (.notFound, some db, [])) ∧
    (idCountAll id db = 1 → (∀ p, destroyOk p = true) →
      ∃ db2, deleteById (some db) id destroyOk =
          ((.ok : DeleteResponse), some db2, (deleteById (some db) id destroyOk).2.2) ∧
        idCountAll id db2 = 0 ∧ totalImages db2 + 1 = totalImages db ∧
        deleteById (some db2) id destroyOk = (.notFound, some db2, [])) := by
  refine ⟨deleteById_absent destroyOk, ?_⟩
  intro hone hok
  rcases deleteById_unique destroyOk hone hok with ⟨db2, heq, hz, hlen⟩
  exact ⟨db2, heq, hz, hlen,
    deleteById_absent destroyOk ((idCountAll_zero_iff id db2).1 hz)⟩

/-- C6 witness: concrete runs — deleting an unknown id from the sample store
answers NotFound leaving it unchanged, deleting the existing id succeeds,
and a repeat delete of that id answers NotFound. -/
theorem delete_notFound_and_removal_witness :
    deleteById (some dbSample) "1" (fun _ => true) = (.notFound, some dbSample, []) ∧
    (deleteById (some dbSample) "42" (fun _ => true)).1 = .ok ∧
    (deleteById ((deleteById (some dbSample) "42" (fun _ => true)).2.1) "42"
      (fun _ => true)).1 = .notFound := by
  refine ⟨(delete_notFound_and_removal dbSample "1" (fun _ => true)).1 (by decide), ?_, ?_⟩
  · rcases (delete_notFound_and_removal dbSample "42" (fun _ => true)).2 (by decide)
      (fun p => rfl) with ⟨db2, heq, hz, hlen, hsec⟩
    rw [heq]
  · rcases (delete_notFound_and_removal dbSample "42" (fun _ => true)).2 (by decide)
      (fun p => rfl) with ⟨db2, heq, hz, hlen, hsec⟩
    rw [heq]
    simp only
    rw [hsec]

/-- C7: the code disagrees with the claim (and with its own comment saying a
non-JSON captions value is treated as a single caption for all files): on a
two-file batch with the single caption string hello, only the first created
item carries the caption and the second item's caption is empty, because the
route stores `[captions]` and reads `captionArray[index]`. -/
theorem single_caption_not_applied_to_all :
    ((postUpload (some emptyCatalog) "family"
        [Except.ok (urSample 1), Except.ok (urSample 2)]
        (CaptionSpec.single "hello") ckSample).1.items.map (fun x => x.caption)) =
      ["hello", ""] := by
  rfl

/-- Remote listing producing two distinct objects whose fabricated ids
collide: public ids a/b and a_b with equal creation timestamps both map to
the id a_b_t. -/
def Rclash : String → Except Unit (List Resource) := fun c =>
  if c = "josh" then
    .ok [{ publicId := "a/b", secureUrl := "u1", createdAt := "t",
           width := 1, height := 1, format := "jpg", resourceType := "image" },
         { publicId := "a_b", secureUrl := "u2", createdAt := "t",
           width := 1, height := 1, format := "jpg", resourceType := "image" }]
  else .ok []

/-- C8 counterexample: one reconciliation from a remote listing holding the
distinct objects a/b and a_b (equal creation timestamps) yields a catalog in
which two items share the id a_b_t — id uniqueness across the catalog does
not survive reconciliation. -/
theorem id_uniqueness_counterexample :
    ¬ idsUnique (initImagesDatabase none ckSample Rclash).1 := by
  unfold idsUnique
  decide

/-- C8 (amended): ids are pairwise distinct among the items created by one
batch upload evaluated at a single Date.now() value; catalog-wide uniqueness
is not enforced — reconciliation can fabricate equal ids for distinct remote
objects, and separate uploads sharing a timestamp collide. -/
theorem batch_ids_distinct (T : Nat) (isoF : Nat → String) (isoOfF : String → String)
    (persisted : Option Catalog) (category : String)
    (files : List (Except String UploadResult)) (caps : CaptionSpec) (items : List Item)
    (h : (postUpload persisted category files caps
      { now := fun _ => T, iso := isoF, isoOf := isoOfF }).1 = .created items) :
    (items.map (fun x => x.id)).Nodup := by
  by_cases h1 : files.isEmpty
  · rw [postUpload, if_pos h1] at h
    simp at h
  · by_cases h2 : category ∈ validCategories
    · rw [postUpload, if_neg h1, if_neg (not_not_intro h2)] at h
      cases hsa : settleAll (mapIdxFrom (fun i f => Except.map
          (mkUploadedItem { now := fun _ => T, iso := isoF, isoOf := isoOfF }
            category caps.toArray i) f) 0 files) with
      | error e =>
          simp only [hsa] at h
          simp at h
      | ok its =>
          simp only [hsa] at h
          simp only [UploadResponse.created.injEq] at h
          subst h
          rw [settleAll_mapIdx_ids files 0 its hsa]
          refine List.Nodup.map ?_ (List.nodup_range' 0 files.length)
          intro a b hab
          simp only at hab
          have hdata := congrArg String.data hab
          rw [String.data_append, String.data_append] at hdata
          have hvals := List.append_cancel_left hdata
          have := congrArg digitsVal hvals
      
          simpa [digitsVal_repr] using this
    · rw [postUpload, if_neg h1, if_pos h2] at h
      simp at h

/-- C8 witness: the two items of one concrete two-file batch at the frozen
timestamp get distinct ids. -/
theorem batch_ids_distinct_witness :
    (((postUpload (some emptyCatalog) "family"
        [Except.ok (urSample 1), Except.ok (urSample 2)] CaptionSpec.omitted
        { now := fun _ => 17, iso := fun _ => "z", isoOf := fun s => s }).1.items.map
      (fun x => x.id)).Nodup) :=
  batch_ids_distinct 17 (fun _ => "z") (fun s => s) (some emptyCatalog) "family"
    [Except.ok (urSample 1), Except.ok (urSample 2)] CaptionSpec.omitted
    ((postUpload (some emptyCatalog) "family"
        [Except.ok (urSample 1), Except.ok (urSample 2)] CaptionSpec.omitted
        { now := fun _ => 17, iso := fun _ => "z", isoOf := fun s => s }).1.items)
    rfl

theorem bucketOf?_invalid {db : Catalog} {c : String} (hc : c ∉ validCategories) :
    bucketOf? db c = none := by
  simp only [validCategories, List.mem_cons, List.mem_singleton, List.not_mem_nil,
    or_false, not_or] at hc
  simp [bucketOf?, hc.1, hc.2.1, hc.2.2]

/-- C9 counterexample: the earliest revision of GET /api/images/:category
answers 404 Category not found for the unknown category pets, so the route,
taken across the repository's revisions, does return an error status for an
unknown category. -/
theorem category_route_error_counterexample :
    getCategoryOld (some emptyCatalog) "pets" = .notFound := by
  rfl

/-- C9 (amended): in the later revisions of GET /api/images/:category (the
standalone one and the Cloudinary-initializing one) the route returns the
category's bucket when the category exists and an empty list for an unknown
category, never an error status; only the earliest revision returns 404 for
an unknown category. -/
theorem category_route_bucket_or_empty (persisted : Option Catalog) (ck : Clock)
    (R : String → Except Unit (List Resource)) (c : String) :
    (∀ db, persisted = some db → totalImages db ≠ 0 →
      getCategoryLatest persisted ck R c = (bucketOf? db c).getD []) ∧
    (c ∉ validCategories → getCategoryLatest persisted ck R c = []) ∧
    (∀ db, persisted = some db → getCategoryPlain persisted c = (bucketOf? db c).getD []) ∧
    (persisted = none → getCategoryPlain persisted c = []) := by
  refine ⟨?_, ?_, ?_, ?_⟩
  · intro db h hne
    subst h
    rw [getCategoryLatest]
    simp only [initImagesDatabase, if_neg hne]
  · intro hc
    rw [getCategoryLatest, bucketOf?_invalid hc]
    rfl
  · intro db h
    subst h
    rfl
  · intro h
    subst h
    rfl

/-- C9 witness: on the sample store the latest route returns the family
bucket, and an unknown category yields an empty list. -/
theorem category_route_bucket_or_empty_witness :
    getCategoryLatest (some dbSample) ckSample (fun _ => .error ()) "family" = dbSample.family ∧
    getCategoryLatest (some dbSample) ckSample (fun _ => .error ()) "pets" = [] := by
  constructor
  · rw [(category_route_bucket_or_empty (some dbSample) ckSample
      (fun _ => .error ()) "family").1 dbSample rfl (by decide)]
    rfl
  · exact (category_route_bucket_or_empty (some dbSample) ckSample
      (fun _ => .error ()) "pets").2.1 (by decide)

/-- C10: delete is atomic with respect to the persisted catalog — whenever
the response is not success the persisted store is exactly as it was, and in
particular a thrown remote destroy (truthy publicId, failing oracle) yields
a 500 response with the catalog unchanged after the one destroy call. -/
theorem delete_atomic_on_remote_failure (s : Option Catalog) (id : String)
    (destroyOk : String → Bool) :
    ((deleteById s id destroyOk).1 ≠ .ok → (deleteById s id destroyOk).2.1 = s) ∧
    (∀ db pid, s = some db → findPublicId db id = some pid → pid ≠ "" →
      destroyOk pid = false →
      deleteById s id destroyOk = (.serverError, some db, [pid])) := by
  refine ⟨deleteById_store_unchanged s id destroyOk, ?_⟩
  intro db pid hs hf hp hfail
  subst hs
  exact deleteById_remote_failure destroyOk hf hp hfail

/-- C10 witness: deleting the existing sample item while every remote
destroy fails answers 500 and leaves the persisted store exactly as it
was. -/
theorem delete_atomic_on_remote_failure_witness :
    deleteById (some dbSample) "42" (fun _ => false) =
      (.serverError, some dbSample, ["josh-farewell/family/old"]) :=
  (delete_atomic_on_remote_failure (some dbSample) "42" (fun _ => false)).2
    dbSample "josh-farewell/family/old" rfl rfl (by decide) rfl
